import Mathlib

/-
Verification of the per-CPU instruction trace core of accel/tcg/log_instr.c.

The definitions below are a shallow embedding of the C source:
  - entries, register/memory/event records and the per-CPU logging state
    become Lean structures;
  - GArray-backed sequences become Lean lists;
  - the backend emit_instr hook becomes an explicit trace of emitted
    entries returned by each operation;
  - external collaborators (cpu_get_recent_pc, cpu_in_user_mode, the
    target regdump hook, physical address translation, the -dfilter
    debug_regions array) become explicit parameters.
Machine integers are modelled as Nat; the only wrap-around that matters
for the verified claims is the ring index arithmetic, which the source
performs with explicit modulo operations mirrored here.
-/

/--
Entry flag bits. Modelled from the spec: the entry `flags` field is a
disjoint union of HAS_INSTR_DATA, MODE_SWITCH, INTR_TRAP, INTR_ASYNC;
the concrete bit positions live in exec/log_instr.h, which is not among
the sources, so distinct low bits are chosen here.
-/
def LI_FLAG_INTR_TRAP : Nat := 1

/-- Entry flag bit for asynchronous interrupts (see LI_FLAG_INTR_TRAP). -/
def LI_FLAG_INTR_ASYNC : Nat := 2

/-- Entry flag bit for CPU mode switches (see LI_FLAG_INTR_TRAP). -/
def LI_FLAG_MODE_SWITCH : Nat := 4

/-- Entry flag bit for recorded instruction data (see LI_FLAG_INTR_TRAP). -/
def LI_FLAG_HAS_INSTR_DATA : Nat := 8

/--
The 32-bit complement of LI_FLAG_HAS_INSTR_DATA: `flags` is a C int, so
`flags &= ~LI_FLAG_HAS_INSTR_DATA` masks with this constant.
-/
def LI_FLAG_HAS_INSTR_DATA_INV : Nat := 0xFFFFFFF7

/--
Global log flag bit for instruction logging. Modelled from the spec: the
monitor flag word has bits INSTR and INSTR_U; the concrete positions live
in qemu/log.h, which is not among the sources, so distinct bits are
chosen here.
-/
def CPU_LOG_INSTR : Nat := 2 ^ 19

/-- Global log flag bit for user-only instruction logging (see CPU_LOG_INSTR). -/
def CPU_LOG_INSTR_U : Nat := 2 ^ 21

/--
Per-CPU state flag selecting buffered (ring) mode. Modelled from the
spec: the `flags` bitset currently holds only BUFFERED; the concrete bit
lives in exec/log_instr_internal.h, which is not among the sources.
-/
def QEMU_LOG_INSTR_FLAG_BUFFERED : Nat := 1

/--
CPU mode value denoting user mode. Modelled from the spec: the
qemu_log_instr_cpu_mode_t enumeration is target-defined; only equality
with the USER value matters to the core.
-/
def QEMU_LOG_INSTR_CPU_USER : Nat := 0

/-- Per-CPU log level (qemu_log_instr_loglevel_t). -/
inductive LogLevel where
  | none
  | all
  | user
deriving DecidableEq, Repr

/-- One register record (log_reginfo_t): flags, name and the value channel. -/
structure LogRegInfo where
  flags : Nat
  name : String
  value : Nat
deriving DecidableEq, Repr

/--
One memory record (log_meminfo_t): LD/ST and CAP flags, memory-op
descriptor, virtual address, physical address (-1 sentinel when the MMU
lookup fails) and the value channel.
-/
structure LogMemInfo where
  flags : Nat
  op : Nat
  addr : Nat
  paddr : Int
  value : Nat
deriving DecidableEq, Repr

/-- State-event direction (LOG_EVENT_STATE_START/STOP/FLUSH). -/
inductive LogEventNextState where
  | start
  | stop
  | flush
deriving DecidableEq, Repr

/-- Payload of a STATE event: the direction and the pc it applies to. -/
structure LogStateEvent where
  next_state : LogEventNextState
  pc : Nat
deriving DecidableEq, Repr

/--
One event record (log_event_t). REGDUMP carries a heap-owned register
dump; `other` stands for the remaining target-defined event kinds, whose
payloads the core treats opaquely.
-/
inductive LogEvent where
  | state (s : LogStateEvent)
  | regdump (gpr : List LogRegInfo)
  | other (id : Nat)
deriving DecidableEq, Repr

/-- The entry accumulating one instruction's observations (cpu_log_entry_t). -/
structure CpuLogEntry where
  pc : Nat
  paddr : Int
  insn_size : Nat
  insn_bytes : List Nat
  flags : Nat
  next_cpu_mode : Nat
  intr_code : Nat
  intr_vector : Nat
  intr_faultaddr : Nat
  asid : Nat
  regs : List LogRegInfo
  mem : List LogMemInfo
  events : List LogEvent
  txt_buffer : String
deriving DecidableEq, Repr

/-- Per-CPU tracing statistics (qemu_log_instr_stats_t). -/
structure LogInstrStats where
  entries_emitted : Nat
  trace_start : Nat
  trace_stop : Nat
deriving DecidableEq, Repr

/--
A reference to one of the registered trace filters. The global
trace_filters table has exactly two entries (entry_mem_regions_filter and
entry_event_filter), so a stored filter function pointer is one of these
two values; pointer equality is constructor equality.
-/
inductive FilterFn where
  | memRegions
  | events
deriving DecidableEq, Repr

/-- The per-CPU logging state (cpu_log_instr_state_t) used by the core. -/
structure CpuLogState where
  loglevel : LogLevel
  loglevel_active : Bool
  starting : Bool
  force_drop : Bool
  flags : Nat
  instr_info : List CpuLogEntry
  ring_head : Nat
  ring_tail : Nat
  filters : List FilterFn
  stats : LogInstrStats
deriving DecidableEq, Repr

/-- An address range of the -dfilter infrastructure (inclusive bounds). -/
structure MemRange where
  lob : Nat
  upb : Nat
deriving DecidableEq, Repr

/-- range_contains from qemu/range.h: inclusive bounds check. -/
def range_contains (r : MemRange) (a : Nat) : Bool :=
  decide (r.lob ≤ a) && decide (a ≤ r.upb)

/--
Process-wide collaborator state read by the core: the -dfilter
debug_regions array, which is either absent (NULL) or a GArray of ranges.
-/
structure Globals where
  debug_regions : Option (List MemRange)
deriving DecidableEq, Repr

/--
Target and MMU collaborators of one CPU: cpu_get_recent_pc,
cpu_in_user_mode, the cpu_log_instr_event_regdump hook (none when the
hook reports failure and no REGDUMP is appended) and get_paddr.
-/
structure EnvHooks where
  recent_pc : Nat
  in_user_mode : Bool
  regdump : Option (List LogRegInfo)
  paddr_of : Nat → Int

/-- The canonically empty entry produced by reset_log_buffer. -/
def resetEntry : CpuLogEntry :=
  { pc := 0, paddr := 0, insn_size := 0, insn_bytes := [], flags := 0,
    next_cpu_mode := 0, intr_code := 0, intr_vector := 0, intr_faultaddr := 0,
    asid := 0, regs := [], mem := [], events := [], txt_buffer := "" }

/-- get_cpu_log_entry: the ring slot currently being populated. -/
def getCpuLogEntry (s : CpuLogState) : CpuLogEntry :=
  s.instr_info.getD s.ring_head resetEntry

/-- Store back the (in-place mutated) current ring slot. -/
def setCurrentEntry (s : CpuLogState) (e : CpuLogEntry) : CpuLogState :=
  { s with instr_info := s.instr_info.set s.ring_head e }

/-- The heap-owned REGDUMP payloads held in an event sequence. -/
def regdumpPayloads (events : List LogEvent) : List (List LogRegInfo) :=
  events.filterMap fun e =>
    match e with
    | LogEvent.regdump gpr => some gpr
    | _ => Option.none

/--
reset_log_buffer: zero the entry's scalar fields, clear its sequences and
text buffer, free the REGDUMP payloads held in its events, and clear the
per-CPU force_drop and starting flags. The freed payloads are returned
explicitly so that claims about deallocation can be stated.
-/
def reset_log_buffer (cpulog : CpuLogState) (entry : CpuLogEntry) :
    CpuLogState × CpuLogEntry × List (List LogRegInfo) :=
  ({ cpulog with force_drop := false, starting := false },
   resetEntry,
   regdumpPayloads entry.events)

/-- Apply reset_log_buffer to the current ring slot and store it back. -/
def resetCurrentSlot (s : CpuLogState) : CpuLogState :=
  setCurrentEntry (reset_log_buffer s (getCpuLogEntry s)).1
    (reset_log_buffer s (getCpuLogEntry s)).2.1

/-- The reset shape required of an entry slot after commit. -/
def entryCanonicallyEmpty (e : CpuLogEntry) : Prop :=
  e.regs = [] ∧ e.mem = [] ∧ e.events = [] ∧ e.txt_buffer = "" ∧ e.flags = 0

/-- entry_mem_regions_filter: pass when debug_regions is NULL, otherwise
match the entry pc or any memory record address against some range. -/
def entry_mem_regions_filter (debug_regions : Option (List MemRange))
    (entry : CpuLogEntry) : Bool :=
  match debug_regions with
  | Option.none => true
  | some regions =>
      regions.any fun r =>
        range_contains r entry.pc ||
          entry.mem.any fun m => range_contains r m.addr

/-- entry_event_filter: retain only entries carrying at least one event. -/
def entry_event_filter (entry : CpuLogEntry) : Bool :=
  if entry.events.length > 0 then true else false

/-- Dispatch through the global trace_filters table. -/
def applyFilter (g : Globals) (f : FilterFn) (e : CpuLogEntry) : Bool :=
  match f with
  | FilterFn.memRegions => entry_mem_regions_filter g.debug_regions e
  | FilterFn.events => entry_event_filter e

/-- qemu_log_instr_add_filter: append unless an equal filter is present. -/
def qemu_log_instr_add_filter (filters : List FilterFn) (f : FilterFn) :
    List FilterFn :=
  if filters.contains f then filters else filters ++ [f]

/--
g_array_remove_index_fast: overwrite the removed slot with the last
element and shrink by one; does not preserve element order in general.
-/
def removeIndexFast (l : List FilterFn) (i : Nat) : List FilterFn :=
  match l.getLast? with
  | Option.none => l
  | some last => (l.set i last).dropLast

/--
qemu_log_instr_remove_filter: locate the first occurrence of the filter
function and remove it with g_array_remove_index_fast.
-/
def qemu_log_instr_remove_filter (filters : List FilterFn) (f : FilterFn) :
    List FilterFn :=
  match filters.findIdx? (fun x => x = f) with
  | Option.none => filters
  | some i => removeIndexFast filters i

/--
The filter loop of do_instr_commit: evaluate filters in order, stopping
at the first that rejects. Returns the overall verdict together with the
list of filters that were actually evaluated, in evaluation order.
-/
def evalFilters (g : Globals) (e : CpuLogEntry) :
    List FilterFn → Bool × List FilterFn
  | [] => (true, [])
  | f :: rest =>
      if applyFilter g f e then
        ((evalFilters g e rest).1, f :: (evalFilters g e rest).2)
      else
        (false, [f])

/--
Result of one commit attempt: the successor state, the trace of entries
handed to the backend's emit_instr hook, and the filters evaluated.
-/
structure CommitResult where
  state : CpuLogState
  emitted : List CpuLogEntry
  filtersEvaluated : List FilterFn
deriving DecidableEq, Repr

/--
do_instr_commit: drop when force_drop is set; otherwise run the filter
pipeline; then either advance the ring head (buffered mode, advancing the
tail when the head catches it) or emit through the backend and count the
entry (streaming mode).
-/
def do_instr_commit (g : Globals) (s : CpuLogState) : CommitResult :=
  if s.force_drop then
    ⟨s, [], []⟩
  else if (evalFilters g (getCpuLogEntry s) s.filters).1 = false then
    ⟨s, [], (evalFilters g (getCpuLogEntry s) s.filters).2⟩
  else if s.flags &&& QEMU_LOG_INSTR_FLAG_BUFFERED ≠ 0 then
    ⟨{ s with
        ring_head := (s.ring_head + 1) % s.instr_info.length,
        ring_tail :=
          if s.ring_tail = (s.ring_head + 1) % s.instr_info.length then
            (s.ring_tail + 1) % s.instr_info.length
          else s.ring_tail },
      [], (evalFilters g (getCpuLogEntry s) s.filters).2⟩
  else
    ⟨{ s with
        stats :=
          { s.stats with entries_emitted := s.stats.entries_emitted + 1 } },
      [getCpuLogEntry s], (evalFilters g (getCpuLogEntry s) s.filters).2⟩

/-- qemu_log_instr_drop: request that the next commit discard its entry. -/
def qemu_log_instr_drop (s : CpuLogState) : CpuLogState :=
  { s with force_drop := true }

/--
Result of the public commit: successor state, backend emission trace,
filters evaluated, and the REGDUMP payloads freed by the final reset.
-/
structure CommitOut where
  state : CpuLogState
  emitted : List CpuLogEntry
  filtersEvaluated : List FilterFn
  freed : List (List LogRegInfo)
deriving DecidableEq, Repr

/--
qemu_log_instr_commit: run do_instr_commit, then reset whichever slot is
current afterwards (the commit may have advanced the ring head).
-/
def qemu_log_instr_commit (g : Globals) (s : CpuLogState) : CommitOut :=
  ⟨resetCurrentSlot (do_instr_commit g s).state,
   (do_instr_commit g s).emitted,
   (do_instr_commit g s).filtersEvaluated,
   (reset_log_buffer (do_instr_commit g s).state
       (getCpuLogEntry (do_instr_commit g s).state)).2.2⟩

/-- The number of committed-but-unflushed entries held by the ring. -/
def ringPending (s : CpuLogState) : Nat :=
  (s.ring_head + s.instr_info.length - s.ring_tail) % s.instr_info.length

/-- emit_stop_event: append a STATE STOP event to the entry. -/
def emit_stop_event (e : CpuLogEntry) (pc : Nat) : CpuLogEntry :=
  { e with
    events := e.events ++ [LogEvent.state ⟨LogEventNextState.stop, pc⟩] }

/--
emit_start_event: clear HAS_INSTR_DATA (start events always have
incomplete instruction data), overwrite the entry pc and its physical
translation with the start pc, and append a STATE START event.
-/
def emit_start_event (hooks : EnvHooks) (e : CpuLogEntry) (pc : Nat) :
    CpuLogEntry :=
  { e with
    flags := e.flags &&& LI_FLAG_HAS_INSTR_DATA_INV,
    pc := pc,
    paddr := hooks.paddr_of pc,
    events := e.events ++ [LogEvent.state ⟨LogEventNextState.start, pc⟩] }

/-- The argument of one scheduled loglevel switch (qemu_log_next_level_arg_t). -/
structure SwitchArg where
  next_level : LogLevel
  pc : Nat
  global : Bool
deriving DecidableEq, Repr

/--
The next_level_active computation of do_cpu_loglevel_switch: NONE is
inactive, ALL is active, USER consults the pending mode switch recorded
in the current entry (or the CPU's current mode when none is recorded).
-/
def computeNextActive (hooks : EnvHooks) (entry : CpuLogEntry) :
    LogLevel → Bool
  | LogLevel.none => false
  | LogLevel.all => true
  | LogLevel.user =>
      if entry.flags &&& LI_FLAG_MODE_SWITCH ≠ 0 then
        decide (entry.next_cpu_mode = QEMU_LOG_INSTR_CPU_USER)
      else hooks.in_user_mode

/--
The prev_active, non-starting arm of do_cpu_loglevel_switch: append a
STATE STOP event, bump trace_stop, commit, and reset the slot that is
current after the commit.
-/
def switchStopPhase (g : Globals) (pc : Nat) (s : CpuLogState) :
    CpuLogState × List CpuLogEntry :=
  (resetCurrentSlot
      (do_instr_commit g
        { setCurrentEntry s (emit_stop_event (getCpuLogEntry s) pc) with
          stats :=
            { s.stats with trace_stop := s.stats.trace_stop + 1 } }).state,
   (do_instr_commit g
      { setCurrentEntry s (emit_stop_event (getCpuLogEntry s) pc) with
        stats :=
          { s.stats with trace_stop := s.stats.trace_stop + 1 } }).emitted)

/--
The next_active arm of do_cpu_loglevel_switch: set starting, append a
STATE START event and, when the target regdump hook succeeds, a synthetic
REGDUMP event; bump trace_start.
-/
def switchStartPhase (hooks : EnvHooks) (pc : Nat) (s : CpuLogState) :
    CpuLogState :=
  { setCurrentEntry { s with starting := true }
      (match hooks.regdump with
       | some gpr =>
           { emit_start_event hooks
               (getCpuLogEntry { s with starting := true }) pc with
             events :=
               (emit_start_event hooks
                   (getCpuLogEntry { s with starting := true }) pc).events ++
                 [LogEvent.regdump gpr] }
       | Option.none =>
           emit_start_event hooks
             (getCpuLogEntry { s with starting := true }) pc) with
    stats := { s.stats with trace_start := s.stats.trace_start + 1 } }

/--
do_cpu_loglevel_switch: update the per-CPU level and activity, then
 1. stop if the transition is a no-op;
 2. if the previous level was active: when a start is still pending,
    discard it by resetting the current slot and stop; otherwise emit a
    STOP event, bump trace_stop, commit and reset;
 3. if the next level is active, run the start phase.
Returns the successor state and the backend emission trace.
-/
def do_cpu_loglevel_switch (g : Globals) (hooks : EnvHooks)
    (s : CpuLogState) (arg : SwitchArg) : CpuLogState × List CpuLogEntry :=
  if arg.next_level = s.loglevel ∧
      s.loglevel_active = computeNextActive hooks (getCpuLogEntry s) arg.next_level then
    ({ s with
        loglevel := arg.next_level,
        loglevel_active :=
          computeNextActive hooks (getCpuLogEntry s) arg.next_level }, [])
  else if s.loglevel_active = true ∧ s.starting = true then
    (resetCurrentSlot
        { s with
          loglevel := arg.next_level,
          loglevel_active :=
            computeNextActive hooks (getCpuLogEntry s) arg.next_level }, [])
  else
    (fun (mid : CpuLogState × List CpuLogEntry) =>
      if computeNextActive hooks (getCpuLogEntry s) arg.next_level then
        (switchStartPhase hooks
            (if arg.global then hooks.recent_pc else arg.pc) mid.1, mid.2)
      else mid)
    (if s.loglevel_active then
        switchStopPhase g (if arg.global then hooks.recent_pc else arg.pc)
          { s with
            loglevel := arg.next_level,
            loglevel_active :=
              computeNextActive hooks (getCpuLogEntry s) arg.next_level }
      else
        ({ s with
            loglevel := arg.next_level,
            loglevel_active :=
              computeNextActive hooks (getCpuLogEntry s) arg.next_level }, []))

/-- One switch callback scheduled on a CPU by the global switch. -/
structure SwitchSched where
  next_level : LogLevel
  global : Bool
deriving DecidableEq, Repr

/--
qemu_log_instr_global_switch: for every CPU, derive the per-CPU next
level from the monitor flag word (INSTR_U wins and forces the plain INSTR
bit on; INSTR alone means ALL; neither means NONE) and schedule a global
switch callback. Returns the adjusted flag word together with the
scheduled callbacks in CPU order.
-/
def qemu_log_instr_global_switch :
    List Unit → Nat → Nat × List SwitchSched
  | [], log_flags => (log_flags, [])
  | _ :: rest, log_flags =>
      if log_flags &&& CPU_LOG_INSTR_U ≠ 0 then
        ((qemu_log_instr_global_switch rest (log_flags ||| CPU_LOG_INSTR)).1,
         ⟨LogLevel.user, true⟩ ::
           (qemu_log_instr_global_switch rest (log_flags ||| CPU_LOG_INSTR)).2)
      else if log_flags &&& CPU_LOG_INSTR ≠ 0 then
        ((qemu_log_instr_global_switch rest log_flags).1,
         ⟨LogLevel.all, true⟩ ::
           (qemu_log_instr_global_switch rest log_flags).2)
      else
        ((qemu_log_instr_global_switch rest log_flags).1,
         ⟨LogLevel.none, true⟩ ::
           (qemu_log_instr_global_switch rest log_flags).2)

/-- The flag-word adjustment performed by the global switch loop body. -/
def adjustFlags (f : Nat) : Nat :=
  if f &&& CPU_LOG_INSTR_U ≠ 0 then f ||| CPU_LOG_INSTR else f

/-- The per-CPU level selected by the global switch loop body. -/
def glSwitchLevel (f : Nat) : LogLevel :=
  if f &&& CPU_LOG_INSTR_U ≠ 0 then LogLevel.user
  else if f &&& CPU_LOG_INSTR ≠ 0 then LogLevel.all
  else LogLevel.none

/--
do_log_buffer_resize: reallocate the ring, clear head and tail and run
qemu_log_entry_init plus reset_log_buffer on every slot. The per-slot
reset clears force_drop and starting whenever at least one slot exists.
-/
def do_log_buffer_resize (s : CpuLogState) (new_size : Nat) : CpuLogState :=
  if new_size = 0 then
    { s with instr_info := [], ring_head := 0, ring_tail := 0 }
  else
    { s with
      instr_info := List.replicate new_size resetEntry,
      ring_head := 0, ring_tail := 0,
      force_drop := false, starting := false }

/--
ctz64 from the host utilities: count of trailing zero bits, 64 for input
zero. Encoded with an explicit fuel argument that bounds the number of
halvings; fuel equal to the input always suffices (each step at least
halves a nonzero value).
-/
def ctzF : Nat → Nat → Nat
  | 0, _ => 64
  | fuel + 1, n =>
      if n = 0 then 64
      else if n % 2 = 1 then 0
      else ctzF fuel (n / 2) + 1

/-- ctz64 with sufficient fuel. -/
def ctz (n : Nat) : Nat := ctzF n n

/--
The indices of the set bits of a word, in least-significant-first order:
the order in which the printf_dump loop visits the valid_entries bitmap.
Encoded with fuel; fuel equal to the word always suffices, because
clearing the lowest set bit strictly decreases the word.
-/
def bitIndicesF : Nat → Nat → List Nat
  | 0, _ => []
  | fuel + 1, v =>
      if v = 0 then []
      else ctz v :: bitIndicesF fuel (v ^^^ (1 <<< ctz v))

/-- Set-bit indices with sufficient fuel. -/
def bitIndices (v : Nat) : List Nat := bitIndicesF v v

/-- Concatenation of a list of rendered strings, in list order. -/
def strConcat : List String → String
  | [] => ""
  | s :: rest => s ++ strConcat rest

/--
The per-CPU printf staging area (qemu_log_printf_buf_t): the D-bit
valid_entries bitmap, the staged format pointers and the staged argument
words (each slot holds up to PRINTF_ARG_MAX 8-byte words, modelled as a
list of Nat).
-/
structure PrintfBuf where
  valid_entries : Nat
  fmts : List String
  args : List (List Nat)
deriving DecidableEq, Repr

/--
The rendering collaborator g_string_append_printf_union_args: formats one
staged format string against its argument words. The dump loop below is
verified for any renderer.
-/
def PrintfRenderer : Type := String → List Nat → String

/--
The bitmap walk of helper_qemu_log_printf_dump: while bits remain, take
the lowest set bit, clear it, and append the rendering of that slot to
the entry text buffer. Fuel equal to the initial bitmap always suffices.
-/
def printfDumpLoopF (render : PrintfRenderer) (buf : PrintfBuf) :
    Nat → Nat → String → String
  | 0, _, txt => txt
  | fuel + 1, valid, txt =>
      if valid = 0 then txt
      else
        printfDumpLoopF render buf fuel (valid ^^^ (1 <<< ctz valid))
          (txt ++ render (buf.fmts.getD (ctz valid) "")
              (buf.args.getD (ctz valid) []))

/--
helper_qemu_log_printf_dump: snapshot and clear valid_entries; if logging
is disabled, stop there; otherwise render every staged slot whose bit was
set, lowest bit first, appending to the current entry's text buffer.
Returns the staging area and the text buffer after the run.
-/
def helper_qemu_log_printf_dump (render : PrintfRenderer) (enabled : Bool)
    (buf : PrintfBuf) (txt : String) : PrintfBuf × String :=
  if enabled = false then
    ({ buf with valid_entries := 0 }, txt)
  else
    ({ buf with valid_entries := 0 },
     printfDumpLoopF render buf buf.valid_entries buf.valid_entries txt)

/-- Globals with no -dfilter ranges configured (debug_regions NULL). -/
def gNone : Globals := ⟨Option.none⟩

/-- Collaborator hooks used by the concrete examples. -/
def hooksEx : EnvHooks :=
  { recent_pc := 7, in_user_mode := true, regdump := some [],
    paddr_of := fun _ => -1 }

/-- A concrete entry carrying one memory record and no events. -/
def entryEx : CpuLogEntry :=
  { resetEntry with
    pc := 0x1000,
    mem := [{ flags := 1, op := 0, addr := 0x2000, paddr := -1, value := 5 }] }

/-- A concrete entry carrying a REGDUMP event. -/
def entryRegdumpEx : CpuLogEntry :=
  { resetEntry with
    events := [LogEvent.regdump [{ flags := 0, name := "r0", value := 3 }]] }

/--
A concrete per-CPU state: streaming mode, user level active with a
pending start, one ring slot holding entryRegdumpEx.
-/
def stateStartingEx : CpuLogState :=
  { loglevel := LogLevel.user, loglevel_active := true, starting := true,
    force_drop := false, flags := 0, instr_info := [entryRegdumpEx],
    ring_head := 0, ring_tail := 0, filters := [],
    stats := { entries_emitted := 0, trace_start := 0, trace_stop := 0 } }

/-- A concrete streaming-mode state with no pending start. -/
def stateStreamEx : CpuLogState :=
  { stateStartingEx with starting := false }

/-- A concrete buffered-mode state: three slots, head 1, tail 0. -/
def stateBufEx : CpuLogState :=
  { loglevel := LogLevel.all, loglevel_active := true, starting := false,
    force_drop := false, flags := QEMU_LOG_INSTR_FLAG_BUFFERED,
    instr_info := [resetEntry, entryRegdumpEx, resetEntry],
    ring_head := 1, ring_tail := 0, filters := [],
    stats := { entries_emitted := 0, trace_start := 0, trace_stop := 0 } }

/-- The switch argument used by the concrete loglevel-switch examples. -/
def argAllEx : SwitchArg :=
  { next_level := LogLevel.all, pc := 3, global := false }

/-- The renderer used by the concrete printf_dump example. -/
def renderEx : PrintfRenderer := fun fmt _ => fmt

/-- A concrete staging area with bits 0 and 2 of valid_entries set. -/
def printfBufEx : PrintfBuf :=
  { valid_entries := 5, fmts := ["a", "b", "c"], args := [[], [], []] }

/-- A concrete streaming-mode state with a pending drop request. -/
def stateDropEx : CpuLogState :=
  { stateStreamEx with force_drop := true }

/--
A concrete streaming-mode state whose current entry carries no events
while the EVENTS filter is installed.
-/
def stateFilterEx : CpuLogState :=
  { stateStreamEx with
    instr_info := [entryEx], filters := [FilterFn.events] }

theorem getD_set_self (l : List CpuLogEntry) (i : Nat) (x d : CpuLogEntry)
    (h : i < l.length) : (l.set i x).getD i d = x := by
  rw [List.getD_eq_getElem?_getD, List.getElem?_set_self h]
  rfl

theorem land_inv_clears_has_instr (x : Nat) :
    (x &&& LI_FLAG_HAS_INSTR_DATA_INV) &&& LI_FLAG_HAS_INSTR_DATA = 0 := by
  rw [Nat.land_assoc,
    (by decide : LI_FLAG_HAS_INSTR_DATA_INV &&& LI_FLAG_HAS_INSTR_DATA = 0),
    Nat.and_zero]

theorem land_inv_keeps_trap (x : Nat) :
    (x &&& LI_FLAG_HAS_INSTR_DATA_INV) &&& LI_FLAG_INTR_TRAP =
      x &&& LI_FLAG_INTR_TRAP := by
  rw [Nat.land_assoc,
    (by decide :
      LI_FLAG_HAS_INSTR_DATA_INV &&& LI_FLAG_INTR_TRAP = LI_FLAG_INTR_TRAP)]

theorem land_inv_keeps_async (x : Nat) :
    (x &&& LI_FLAG_HAS_INSTR_DATA_INV) &&& LI_FLAG_INTR_ASYNC =
      x &&& LI_FLAG_INTR_ASYNC := by
  rw [Nat.land_assoc,
    (by decide :
      LI_FLAG_HAS_INSTR_DATA_INV &&& LI_FLAG_INTR_ASYNC = LI_FLAG_INTR_ASYNC)]

theorem land_inv_keeps_mode_switch (x : Nat) :
    (x &&& LI_FLAG_HAS_INSTR_DATA_INV) &&& LI_FLAG_MODE_SWITCH =
      x &&& LI_FLAG_MODE_SWITCH := by
  rw [Nat.land_assoc,
    (by decide :
      LI_FLAG_HAS_INSTR_DATA_INV &&& LI_FLAG_MODE_SWITCH = LI_FLAG_MODE_SWITCH)]

/--
C3 counterexample: with a present-but-empty debug_regions array, an entry
does not pass the MEM_REGIONS filter, contradicting the claim that every
entry passes whenever the range set is empty.
-/
theorem c3_counterexample_empty_array :
    entry_mem_regions_filter (some []) entryEx = false := rfl

/--
C3 (amended): every entry passes the MEM_REGIONS filter when
debug_regions is NULL (absent); when debug_regions is present but holds
zero ranges, the predicate rejects every entry.
-/
theorem c3_mem_regions_empty_amended (e : CpuLogEntry) :
    entry_mem_regions_filter Option.none e = true ∧
      entry_mem_regions_filter (some []) e = false :=
  ⟨rfl, rfl⟩

/--
C10 counterexample: appending a START event extends the entry's event
sequence, so the event sequence is not left unchanged as claimed.
-/
theorem c10_counterexample_events_grow :
    (emit_start_event hooksEx resetEntry 5).events ≠ resetEntry.events := by
  decide

/--
C10 (amended): appending a START state event clears HAS_INSTR_DATA,
preserves the other flag bits, overwrites pc and paddr with the start pc
and its physical translation, appends exactly the START event to the
event sequence, and leaves every other field (including the register and
memory sequences) unchanged.
-/
theorem c10_emit_start_event_frame (hooks : EnvHooks) (e : CpuLogEntry)
    (pc : Nat) :
    (emit_start_event hooks e pc).flags &&& LI_FLAG_HAS_INSTR_DATA = 0 ∧
    (emit_start_event hooks e pc).flags &&& LI_FLAG_INTR_TRAP =
      e.flags &&& LI_FLAG_INTR_TRAP ∧
    (emit_start_event hooks e pc).flags &&& LI_FLAG_INTR_ASYNC =
      e.flags &&& LI_FLAG_INTR_ASYNC ∧
    (emit_start_event hooks e pc).flags &&& LI_FLAG_MODE_SWITCH =
      e.flags &&& LI_FLAG_MODE_SWITCH ∧
    (emit_start_event hooks e pc).pc = pc ∧
    (emit_start_event hooks e pc).paddr = hooks.paddr_of pc ∧
    (emit_start_event hooks e pc).regs = e.regs ∧
    (emit_start_event hooks e pc).mem = e.mem ∧
    (emit_start_event hooks e pc).events =
      e.events ++ [LogEvent.state ⟨LogEventNextState.start, pc⟩] ∧
    (emit_start_event hooks e pc).insn_size = e.insn_size ∧
    (emit_start_event hooks e pc).insn_bytes = e.insn_bytes ∧
    (emit_start_event hooks e pc).next_cpu_mode = e.next_cpu_mode ∧
    (emit_start_event hooks e pc).intr_code = e.intr_code ∧
    (emit_start_event hooks e pc).intr_vector = e.intr_vector ∧
    (emit_start_event hooks e pc).intr_faultaddr = e.intr_faultaddr ∧
    (emit_start_event hooks e pc).asid = e.asid ∧
    (emit_start_event hooks e pc).txt_buffer = e.txt_buffer := by
  refine ⟨land_inv_clears_has_instr e.flags, land_inv_keeps_trap e.flags,
    land_inv_keeps_async e.flags, land_inv_keeps_mode_switch e.flags,
    rfl, rfl, rfl, rfl, rfl, rfl, rfl, rfl, rfl, rfl, rfl, rfl, rfl⟩

/--
C2: removing a filter present in a duplicate-free per-CPU filter list
(the shape every reachable filter list has, because appends dedup and the
registry holds exactly two filters) deletes exactly one occurrence and
preserves the relative order of the remaining elements.
-/
theorem c2_remove_filter_preserves_order (filters : List FilterFn)
    (f : FilterFn) (hnd : filters.Nodup) (hmem : f ∈ filters) :
    qemu_log_instr_remove_filter filters f = filters.erase f ∧
      (qemu_log_instr_remove_filter filters f).length + 1 = filters.length := by
  cases filters with
  | nil => exact absurd hmem (by simp)
  | cons a t =>
    cases t with
    | nil =>
      cases a <;> cases f <;> revert hnd hmem <;> decide
    | cons b t2 =>
      cases t2 with
      | nil =>
        cases a <;> cases b <;> cases f <;> revert hnd hmem <;> decide
      | cons c t3 =>
        cases a <;> cases b <;> cases c <;> simp_all [List.nodup_cons]

/-- C2 witness: removing EVENTS from the two-element list. -/
theorem c2_remove_filter_witness :
    qemu_log_instr_remove_filter [FilterFn.memRegions, FilterFn.events]
        FilterFn.events =
      [FilterFn.memRegions, FilterFn.events].erase FilterFn.events ∧
    (qemu_log_instr_remove_filter [FilterFn.memRegions, FilterFn.events]
        FilterFn.events).length + 1 =
      ([FilterFn.memRegions, FilterFn.events] : List FilterFn).length :=
  c2_remove_filter_preserves_order _ _ (by decide) (by decide)

theorem evalFilters_all_true (g : Globals) (e : CpuLogEntry)
    (fs : List FilterFn) (h : ∀ f ∈ fs, applyFilter g f e = true) :
    evalFilters g e fs = (true, fs) := by
  induction fs with
  | nil => rfl
  | cons f rest ih =>
    unfold evalFilters
    rw [if_pos (h f (by simp)), ih (fun x hx => h x (by simp [hx]))]

theorem evalFilters_break (g : Globals) (e : CpuLogEntry)
    (pre : List FilterFn) (f : FilterFn) (post : List FilterFn)
    (hpre : ∀ x ∈ pre, applyFilter g x e = true)
    (hf : applyFilter g f e = false) :
    evalFilters g e (pre ++ f :: post) = (false, pre ++ [f]) := by
  induction pre with
  | nil => simp [evalFilters, hf]
  | cons p pre2 ih =>
    rw [List.cons_append]
    unfold evalFilters
    rw [if_pos (hpre p (by simp)), ih (fun x hx => hpre x (by simp [hx]))]
    simp

theorem do_instr_commit_instr_info (g : Globals) (s : CpuLogState) :
    (do_instr_commit g s).state.instr_info = s.instr_info := by
  unfold do_instr_commit
  split
  · rfl
  · split
    · rfl
    · split
      · rfl
      · rfl

theorem do_instr_commit_head_lt (g : Globals) (s : CpuLogState)
    (h : s.ring_head < s.instr_info.length) :
    (do_instr_commit g s).state.ring_head < s.instr_info.length := by
  unfold do_instr_commit
  split
  · exact h
  · split
    · exact h
    · split
      · exact Nat.mod_lt _ (Nat.lt_of_le_of_lt (Nat.zero_le s.ring_head) h)
      · exact h

/--
C5: after a commit, the slot that is then current is canonically empty
(register, memory and event sequences of length 0, empty text buffer,
flags 0), and the reset frees exactly the heap-owned REGDUMP payloads
held in the events of that slot before it was cleared.
-/
theorem c5_commit_resets_canonically (g : Globals) (s : CpuLogState)
    (h : s.ring_head < s.instr_info.length) :
    entryCanonicallyEmpty (getCpuLogEntry (qemu_log_instr_commit g s).state) ∧
    (qemu_log_instr_commit g s).freed =
      regdumpPayloads
        (getCpuLogEntry (do_instr_commit g s).state).events := by
  constructor
  · have hlt : (do_instr_commit g s).state.ring_head <
        (do_instr_commit g s).state.instr_info.length := by
      rw [do_instr_commit_instr_info]
      exact do_instr_commit_head_lt g s h
    show entryCanonicallyEmpty (getCpuLogEntry
      (resetCurrentSlot (do_instr_commit g s).state))
    unfold resetCurrentSlot reset_log_buffer setCurrentEntry getCpuLogEntry
    simp only
    rw [getD_set_self _ _ _ _ hlt]
    exact ⟨rfl, rfl, rfl, rfl, rfl⟩
  · rfl

/-- C5 witness: committing the concrete streaming state. -/
theorem c5_commit_resets_witness :
    entryCanonicallyEmpty
      (getCpuLogEntry (qemu_log_instr_commit gNone stateStreamEx).state) ∧
    (qemu_log_instr_commit gNone stateStreamEx).freed =
      regdumpPayloads
        (getCpuLogEntry (do_instr_commit gNone stateStreamEx).state).events :=
  c5_commit_resets_canonically gNone stateStreamEx (by decide)

/--
C6: in buffered mode a non-dropped, filter-passing commit advances the
ring head by one modulo the ring size without invoking the backend (the
emission trace is empty and entries_emitted is unchanged); when the head
catches the tail, the tail also advances by one; and the number of
pending entries stays strictly below the ring size.
-/
theorem c6_buffered_commit_ring (g : Globals) (s : CpuLogState)
    (hb : s.flags &&& QEMU_LOG_INSTR_FLAG_BUFFERED ≠ 0)
    (hd : s.force_drop = false)
    (hf : ∀ f ∈ s.filters, applyFilter g f (getCpuLogEntry s) = true)
    (hh : s.ring_head < s.instr_info.length) :
    (do_instr_commit g s).emitted = [] ∧
    (do_instr_commit g s).state.stats.entries_emitted =
      s.stats.entries_emitted ∧
    (do_instr_commit g s).state.ring_head =
      (s.ring_head + 1) % s.instr_info.length ∧
    (do_instr_commit g s).state.ring_tail =
      (if s.ring_tail = (s.ring_head + 1) % s.instr_info.length then
        (s.ring_tail + 1) % s.instr_info.length
      else s.ring_tail) ∧
    ringPending (do_instr_commit g s).state < s.instr_info.length := by
  have hpos : 0 < s.instr_info.length :=
    Nat.lt_of_le_of_lt (Nat.zero_le s.ring_head) hh
  have hc : do_instr_commit g s =
      ⟨{ s with
          ring_head := (s.ring_head + 1) % s.instr_info.length,
          ring_tail :=
            if s.ring_tail = (s.ring_head + 1) % s.instr_info.length then
              (s.ring_tail + 1) % s.instr_info.length
            else s.ring_tail },
        [], s.filters⟩ := by
    unfold do_instr_commit
    rw [evalFilters_all_true g (getCpuLogEntry s) s.filters hf, hd]
    simp [hb]
  rw [hc]
  refine ⟨rfl, rfl, rfl, rfl, ?_⟩
  unfold ringPending
  simp only
  exact Nat.mod_lt _ hpos

/-- C6 witness: a buffered commit on the concrete three-slot ring. -/
theorem c6_buffered_commit_witness :
    (do_instr_commit gNone stateBufEx).emitted = [] ∧
    (do_instr_commit gNone stateBufEx).state.stats.entries_emitted =
      stateBufEx.stats.entries_emitted ∧
    (do_instr_commit gNone stateBufEx).state.ring_head =
      (stateBufEx.ring_head + 1) % stateBufEx.instr_info.length ∧
    (do_instr_commit gNone stateBufEx).state.ring_tail =
      (if stateBufEx.ring_tail =
          (stateBufEx.ring_head + 1) % stateBufEx.instr_info.length then
        (stateBufEx.ring_tail + 1) % stateBufEx.instr_info.length
      else stateBufEx.ring_tail) ∧
    ringPending (do_instr_commit gNone stateBufEx).state <
      stateBufEx.instr_info.length :=
  c6_buffered_commit_ring gNone stateBufEx (by decide) rfl (by decide) (by decide)

/--
C7: a commit with force_drop set discards the entry without calling the
backend and without touching the state (in particular entries_emitted is
unchanged); and when a filter rejects the entry, the backend is not
called, the state is unchanged, and no filter after the rejecting one is
evaluated.
-/
theorem c7_drop_and_filter_discard (g : Globals) (s : CpuLogState) :
    (s.force_drop = true → do_instr_commit g s = ⟨s, [], []⟩) ∧
    (∀ pre f post, s.force_drop = false →
      s.filters = pre ++ f :: post →
      (∀ x ∈ pre, applyFilter g x (getCpuLogEntry s) = true) →
      applyFilter g f (getCpuLogEntry s) = false →
      do_instr_commit g s = ⟨s, [], pre ++ [f]⟩) := by
  constructor
  · intro hd
    unfold do_instr_commit
    rw [hd]
    simp
  · intro pre f post hd hfil hpre hf
    unfold do_instr_commit
    rw [hd, hfil, evalFilters_break g (getCpuLogEntry s) pre f post hpre hf]
    simp

/--
C7 witness: a forced drop on the concrete state and a rejecting EVENTS
filter on an entry with no events.
-/
theorem c7_drop_and_filter_witness :
    do_instr_commit gNone stateDropEx = ⟨stateDropEx, [], []⟩ ∧
    do_instr_commit gNone stateFilterEx =
      ⟨stateFilterEx, [], [FilterFn.events]⟩ :=
  ⟨(c7_drop_and_filter_discard gNone stateDropEx).1 rfl,
   (c7_drop_and_filter_discard gNone stateFilterEx).2 [] FilterFn.events []
     rfl rfl (by simp) (by decide)⟩

/--
C9: every reset of the current entry (the one ending each commit, the
discard on a loglevel-switch stop, and the per-slot reset on buffer
resize) clears force_drop and starting, so a drop request affects at most
the single next commit and a force-dropped commit leaves no pending drop.
-/
theorem c9_reset_clears_drop_and_starting (g : Globals) (s : CpuLogState)
    (e : CpuLogEntry) (n : Nat) :
    (reset_log_buffer s e).1.force_drop = false ∧
    (reset_log_buffer s e).1.starting = false ∧
    (resetCurrentSlot s).force_drop = false ∧
    (resetCurrentSlot s).starting = false ∧
    (qemu_log_instr_drop s).force_drop = true ∧
    (qemu_log_instr_commit g (qemu_log_instr_drop s)).emitted = [] ∧
    (qemu_log_instr_commit g (qemu_log_instr_drop s)).state.force_drop =
      false ∧
    (qemu_log_instr_commit g (qemu_log_instr_drop s)).state.starting = false ∧
    (0 < n →
      (do_log_buffer_resize s n).force_drop = false ∧
      (do_log_buffer_resize s n).starting = false) := by
  refine ⟨rfl, rfl, rfl, rfl, rfl, rfl, rfl, rfl, ?_⟩
  intro hn
  unfold do_log_buffer_resize
  rw [if_neg (Nat.pos_iff_ne_zero.mp hn)]
  exact ⟨rfl, rfl⟩

/-- C9 witness: the resize arm at size one, plus a dropped commit. -/
theorem c9_reset_clears_witness :
    (do_log_buffer_resize stateStreamEx 1).force_drop = false ∧
    (do_log_buffer_resize stateStreamEx 1).starting = false ∧
    (qemu_log_instr_commit gNone
        (qemu_log_instr_drop stateStreamEx)).emitted = [] ∧
    (qemu_log_instr_commit gNone
        (qemu_log_instr_drop stateStreamEx)).state.force_drop = false :=
  ⟨((c9_reset_clears_drop_and_starting gNone stateStreamEx resetEntry
        1).2.2.2.2.2.2.2.2 (by decide)).1,
   ((c9_reset_clears_drop_and_starting gNone stateStreamEx resetEntry
        1).2.2.2.2.2.2.2.2 (by decide)).2,
   (c9_reset_clears_drop_and_starting gNone stateStreamEx resetEntry
      1).2.2.2.2.2.1,
   (c9_reset_clears_drop_and_starting gNone stateStreamEx resetEntry
      1).2.2.2.2.2.2.1⟩

/--
C1 counterexample: from a user-active state with a pending start, a
switch to ALL (next level active, not a no-op) discards the pending start
and then stops: starting is left false, trace_start is not incremented
and no START or REGDUMP event is appended, contradicting the claim that
control proceeds to step 3.
-/
theorem c1_counterexample_no_restart :
    (do_cpu_loglevel_switch gNone hooksEx stateStartingEx
        argAllEx).1.starting = false ∧
    (do_cpu_loglevel_switch gNone hooksEx stateStartingEx
        argAllEx).1.stats.trace_start = 0 ∧
    (getCpuLogEntry (do_cpu_loglevel_switch gNone hooksEx stateStartingEx
        argAllEx).1).events = [] := by
  decide

/--
C1 (amended): if the switch is not a no-op, the previous level was active
and starting is set, the pending start is discarded by resetting the
current entry and the switch completes immediately: step 3 is skipped
even when the next level is active, so no START or REGDUMP event is
appended, starting is left false, the statistics (including trace_start)
are unchanged, and nothing is emitted.
-/
theorem c1_starting_discard_stops (g : Globals) (hooks : EnvHooks)
    (s : CpuLogState) (arg : SwitchArg)
    (hactive : s.loglevel_active = true)
    (hstarting : s.starting = true)
    (hchange : ¬(arg.next_level = s.loglevel ∧
      s.loglevel_active =
        computeNextActive hooks (getCpuLogEntry s) arg.next_level))
    (hh : s.ring_head < s.instr_info.length) :
    do_cpu_loglevel_switch g hooks s arg =
      (resetCurrentSlot
        { s with
          loglevel := arg.next_level,
          loglevel_active :=
            computeNextActive hooks (getCpuLogEntry s) arg.next_level },
       []) ∧
    (do_cpu_loglevel_switch g hooks s arg).1.starting = false ∧
    (do_cpu_loglevel_switch g hooks s arg).1.stats = s.stats ∧
    (do_cpu_loglevel_switch g hooks s arg).2 = [] ∧
    entryCanonicallyEmpty
      (getCpuLogEntry (do_cpu_loglevel_switch g hooks s arg).1) := by
  have heq : do_cpu_loglevel_switch g hooks s arg =
      (resetCurrentSlot
        { s with
          loglevel := arg.next_level,
          loglevel_active :=
            computeNextActive hooks (getCpuLogEntry s) arg.next_level },
       []) := by
    unfold do_cpu_loglevel_switch
    rw [if_neg hchange, if_pos ⟨hactive, hstarting⟩]
  refine ⟨heq, ?_, ?_, ?_, ?_⟩
  · rw [heq]
    rfl
  · rw [heq]
    rfl
  · rw [heq]
  · rw [heq]
    unfold resetCurrentSlot reset_log_buffer setCurrentEntry getCpuLogEntry
    simp only
    rw [getD_set_self _ _ _ _ hh]
    exact ⟨rfl, rfl, rfl, rfl, rfl⟩

/-- C1 (amended) witness: the concrete user-to-ALL switch with a pending start. -/
theorem c1_starting_discard_witness :
    do_cpu_loglevel_switch gNone hooksEx stateStartingEx argAllEx =
      (resetCurrentSlot
        { stateStartingEx with
          loglevel := argAllEx.next_level,
          loglevel_active :=
            computeNextActive hooksEx (getCpuLogEntry stateStartingEx)
              argAllEx.next_level },
       []) ∧
    (do_cpu_loglevel_switch gNone hooksEx stateStartingEx
        argAllEx).1.starting = false ∧
    (do_cpu_loglevel_switch gNone hooksEx stateStartingEx
        argAllEx).1.stats = stateStartingEx.stats ∧
    (do_cpu_loglevel_switch gNone hooksEx stateStartingEx argAllEx).2 = [] ∧
    entryCanonicallyEmpty
      (getCpuLogEntry (do_cpu_loglevel_switch gNone hooksEx stateStartingEx
          argAllEx).1) :=
  c1_starting_discard_stops gNone hooksEx stateStartingEx argAllEx rfl rfl
    (by decide) (by decide)

theorem lor_land_self (f p : Nat) : (f ||| p) &&& p = p := by
  apply Nat.eq_of_testBit_eq
  intro i
  rw [Nat.testBit_and, Nat.testBit_or]
  cases p.testBit i <;> simp

theorem or_two_pow_and_two_pow_ne (f a b : Nat) (h : a ≠ b) :
    (f ||| 2 ^ a) &&& 2 ^ b = f &&& 2 ^ b := by
  apply Nat.eq_of_testBit_eq
  intro i
  rw [Nat.testBit_and, Nat.testBit_and, Nat.testBit_or, Nat.testBit_two_pow,
    Nat.testBit_two_pow]
  by_cases hbi : b = i
  · subst hbi
    simp [h]
  · simp [hbi]

theorem adjustFlags_pos (f : Nat) (hu : f &&& CPU_LOG_INSTR_U ≠ 0) :
    adjustFlags f = f ||| CPU_LOG_INSTR := by
  unfold adjustFlags
  rw [if_pos hu]

theorem adjustFlags_neg (f : Nat) (hu : ¬f &&& CPU_LOG_INSTR_U ≠ 0) :
    adjustFlags f = f := by
  unfold adjustFlags
  rw [if_neg hu]

theorem adjustFlags_and_U (f : Nat) :
    adjustFlags f &&& CPU_LOG_INSTR_U = f &&& CPU_LOG_INSTR_U := by
  unfold adjustFlags
  split
  · exact or_two_pow_and_two_pow_ne f 19 21 (by decide)
  · rfl

theorem glSwitchLevel_user (f : Nat) (hu : f &&& CPU_LOG_INSTR_U ≠ 0) :
    glSwitchLevel f = LogLevel.user := by
  unfold glSwitchLevel
  rw [if_pos hu]

theorem glSwitchLevel_all (f : Nat) (hu : ¬f &&& CPU_LOG_INSTR_U ≠ 0)
    (hi : f &&& CPU_LOG_INSTR ≠ 0) : glSwitchLevel f = LogLevel.all := by
  unfold glSwitchLevel
  rw [if_neg hu, if_pos hi]

theorem glSwitchLevel_lo (f : Nat) (hu : ¬f &&& CPU_LOG_INSTR_U ≠ 0)
    (hi : ¬f &&& CPU_LOG_INSTR ≠ 0) : glSwitchLevel f = LogLevel.none := by
  unfold glSwitchLevel
  rw [if_neg hu, if_neg hi]

theorem glSwitchLevel_adjust (f : Nat) :
    glSwitchLevel (adjustFlags f) = glSwitchLevel f := by
  by_cases hu : f &&& CPU_LOG_INSTR_U ≠ 0
  · have h2 : adjustFlags f &&& CPU_LOG_INSTR_U ≠ 0 := by
      rw [adjustFlags_and_U]
      exact hu
    rw [glSwitchLevel_user (adjustFlags f) h2, glSwitchLevel_user f hu]
  · rw [adjustFlags_neg f hu]

theorem global_switch_stable (rest : List Unit) : ∀ f : Nat,
    (qemu_log_instr_global_switch rest (adjustFlags f)).1 = adjustFlags f ∧
    (qemu_log_instr_global_switch rest (adjustFlags f)).2 =
      List.replicate rest.length ⟨glSwitchLevel f, true⟩ := by
  induction rest with
  | nil => exact fun f => ⟨rfl, rfl⟩
  | cons u rest ih =>
    intro f
    by_cases hu : f &&& CPU_LOG_INSTR_U ≠ 0
    · have h2 : adjustFlags f &&& CPU_LOG_INSTR_U ≠ 0 := by
        rw [adjustFlags_and_U]
        exact hu
      have hoo : adjustFlags f ||| CPU_LOG_INSTR = adjustFlags f := by
        rw [adjustFlags_pos f hu, Nat.lor_assoc, Nat.or_self]
      unfold qemu_log_instr_global_switch
      rw [if_pos h2, hoo]
      obtain ⟨ih1, ih2⟩ := ih f
      refine ⟨ih1, ?_⟩
      rw [ih2, glSwitchLevel_user f hu]
      simp [List.replicate_succ]
    · have hid : adjustFlags f = f := adjustFlags_neg f hu
      unfold qemu_log_instr_global_switch
      rw [hid, if_neg hu]
      obtain ⟨ih1, ih2⟩ := ih f
      rw [hid] at ih1 ih2
      by_cases hi : f &&& CPU_LOG_INSTR ≠ 0
      · rw [if_pos hi]
        refine ⟨ih1, ?_⟩
        rw [ih2, glSwitchLevel_all f hu hi]
        simp [List.replicate_succ]
      · rw [if_neg hi]
        refine ⟨ih1, ?_⟩
        rw [ih2, glSwitchLevel_lo f hu hi]
        simp [List.replicate_succ]

theorem global_switch_run (cpus : List Unit) (f : Nat) (h : cpus ≠ []) :
    (qemu_log_instr_global_switch cpus f).1 = adjustFlags f ∧
    (qemu_log_instr_global_switch cpus f).2 =
      List.replicate cpus.length ⟨glSwitchLevel f, true⟩ := by
  cases cpus with
  | nil => exact absurd rfl h
  | cons u rest =>
    by_cases hu : f &&& CPU_LOG_INSTR_U ≠ 0
    · unfold qemu_log_instr_global_switch
      rw [if_pos hu, show f ||| CPU_LOG_INSTR = adjustFlags f from
        (adjustFlags_pos f hu).symm]
      obtain ⟨s1, s2⟩ := global_switch_stable rest f
      refine ⟨s1, ?_⟩
      rw [s2, glSwitchLevel_user f hu]
      simp [List.replicate_succ]
    · have hid : adjustFlags f = f := adjustFlags_neg f hu
      unfold qemu_log_instr_global_switch
      rw [if_neg hu]
      obtain ⟨s1, s2⟩ := global_switch_stable rest f
      rw [hid] at s1 s2
      by_cases hi : f &&& CPU_LOG_INSTR ≠ 0
      · rw [if_pos hi]
        refine ⟨by rw [s1, hid], ?_⟩
        rw [s2, glSwitchLevel_all f hu hi]
        simp [List.replicate_succ]
      · rw [if_neg hi]
        refine ⟨by rw [s1, hid], ?_⟩
        rw [s2, glSwitchLevel_lo f hu hi]
        simp [List.replicate_succ]

/--
C4: on a machine with at least one CPU, the global switch returns the
flag word adjusted so that the plain INSTR bit is set whenever INSTR_U
was set in the input, and schedules on every CPU a global switch callback
whose next level is USER when INSTR_U is set, ALL when only INSTR is set,
and NONE when neither is set.
-/
theorem c4_global_switch_spec (cpus : List Unit) (f : Nat) (h : cpus ≠ []) :
    (qemu_log_instr_global_switch cpus f).1 =
      (if f &&& CPU_LOG_INSTR_U ≠ 0 then f ||| CPU_LOG_INSTR else f) ∧
    (f &&& CPU_LOG_INSTR_U ≠ 0 →
      (qemu_log_instr_global_switch cpus f).1 &&& CPU_LOG_INSTR ≠ 0) ∧
    (qemu_log_instr_global_switch cpus f).2 =
      List.replicate cpus.length
        ⟨if f &&& CPU_LOG_INSTR_U ≠ 0 then LogLevel.user
          else if f &&& CPU_LOG_INSTR ≠ 0 then LogLevel.all
          else LogLevel.none, true⟩ := by
  obtain ⟨h1, h2⟩ := global_switch_run cpus f h
  refine ⟨h1, ?_, h2⟩
  intro hu
  rw [h1]
  show adjustFlags f &&& CPU_LOG_INSTR ≠ 0
  rw [adjustFlags_pos f hu, lor_land_self]
  decide

/-- C4 witness: one CPU, input flag word with only INSTR_U set. -/
theorem c4_global_switch_witness :
    (qemu_log_instr_global_switch [()] CPU_LOG_INSTR_U).1 =
      (if CPU_LOG_INSTR_U &&& CPU_LOG_INSTR_U ≠ 0 then
        CPU_LOG_INSTR_U ||| CPU_LOG_INSTR
      else CPU_LOG_INSTR_U) ∧
    (qemu_log_instr_global_switch [()] CPU_LOG_INSTR_U).1 &&&
        CPU_LOG_INSTR ≠ 0 ∧
    (qemu_log_instr_global_switch [()] CPU_LOG_INSTR_U).2 =
      List.replicate 1
        ⟨if CPU_LOG_INSTR_U &&& CPU_LOG_INSTR_U ≠ 0 then LogLevel.user
          else if CPU_LOG_INSTR_U &&& CPU_LOG_INSTR ≠ 0 then LogLevel.all
          else LogLevel.none, true⟩ :=
  ⟨(c4_global_switch_spec [()] CPU_LOG_INSTR_U (by decide)).1,
   (c4_global_switch_spec [()] CPU_LOG_INSTR_U (by decide)).2.1 (by decide),
   (c4_global_switch_spec [()] CPU_LOG_INSTR_U (by decide)).2.2⟩

theorem ctzF_spec (fuel : Nat) : ∀ n, n ≤ fuel → n ≠ 0 →
    n.testBit (ctzF fuel n) = true ∧
      ∀ j, j < ctzF fuel n → n.testBit j = false := by
  induction fuel with
  | zero =>
    intro n h hn
    exact absurd (Nat.le_zero.mp h) hn
  | succ fuel ih =>
    intro n h hn
    unfold ctzF
    rw [if_neg hn]
    by_cases hodd : n % 2 = 1
    · rw [if_pos hodd]
      constructor
      · rw [Nat.testBit_zero]
        exact decide_eq_true hodd
      · intro j hj
        exact absurd hj (Nat.not_lt_zero j)
    · rw [if_neg hodd]
      have hn2 : n / 2 ≠ 0 := by omega
      have hle : n / 2 ≤ fuel := by omega
      obtain ⟨ih1, ih2⟩ := ih (n / 2) hle hn2
      constructor
      · rw [Nat.testBit_succ]
        exact ih1
      · intro j hj
        cases j with
        | zero =>
          rw [Nat.testBit_zero]
          exact decide_eq_false hodd
        | succ j2 =>
          rw [Nat.testBit_succ]
          exact ih2 j2 (by omega)

theorem ctz_testBit (n : Nat) (hn : n ≠ 0) : n.testBit (ctz n) = true :=
  (ctzF_spec n n le_rfl hn).1

theorem ctz_min (n : Nat) (hn : n ≠ 0) :
    ∀ j, j < ctz n → n.testBit j = false :=
  (ctzF_spec n n le_rfl hn).2

theorem xor_shift_testBit (v k j : Nat) :
    (v ^^^ (1 <<< k)).testBit j =
      if j = k then !(v.testBit j) else v.testBit j := by
  rw [Nat.shiftLeft_eq, one_mul, Nat.testBit_xor, Nat.testBit_two_pow]
  by_cases hjk : j = k
  · subst hjk
    simp
  · have hd : decide (k = j) = false := decide_eq_false (Ne.symm hjk)
    rw [hd, if_neg hjk]
    cases v.testBit j <;> rfl

theorem xor_ctz_lt (v : Nat) (hv : v ≠ 0) : v ^^^ (1 <<< ctz v) < v := by
  apply Nat.lt_of_testBit (ctz v)
  · rw [xor_shift_testBit, if_pos rfl, ctz_testBit v hv]
    rfl
  · exact ctz_testBit v hv
  · intro j hj
    rw [xor_shift_testBit, if_neg (Ne.symm (Nat.ne_of_lt hj))]

theorem bitIndicesF_zero (fuel : Nat) : bitIndicesF fuel 0 = [] := by
  cases fuel <;> rfl

theorem bitIndicesF_fuel (fuel : Nat) : ∀ fuel2 v, v ≤ fuel → v ≤ fuel2 →
    bitIndicesF fuel v = bitIndicesF fuel2 v := by
  induction fuel with
  | zero =>
    intro fuel2 v h _
    have hv : v = 0 := Nat.le_zero.mp h
    subst hv
    rw [bitIndicesF_zero, bitIndicesF_zero]
  | succ fuel ih =>
    intro fuel2 v h h2
    by_cases hv : v = 0
    · subst hv
      rw [bitIndicesF_zero, bitIndicesF_zero]
    · cases fuel2 with
      | zero => exact absurd (Nat.le_zero.mp h2) hv
      | succ fuel2 =>
        unfold bitIndicesF
        rw [if_neg hv, if_neg hv]
        have hlt : v ^^^ (1 <<< ctz v) < v := xor_ctz_lt v hv
        rw [ih fuel2 (v ^^^ (1 <<< ctz v)) (by omega) (by omega)]

theorem bitIndices_unfold (v : Nat) (hv : v ≠ 0) :
    bitIndices v = ctz v :: bitIndices (v ^^^ (1 <<< ctz v)) := by
  cases v with
  | zero => exact absurd rfl hv
  | succ n =>
    show bitIndicesF (n + 1) (n + 1) = _
    unfold bitIndicesF
    rw [if_neg hv]
    have hlt : (n + 1) ^^^ (1 <<< ctz (n + 1)) < n + 1 := xor_ctz_lt (n + 1) hv
    rw [bitIndicesF_fuel n ((n + 1) ^^^ (1 <<< ctz (n + 1)))
      ((n + 1) ^^^ (1 <<< ctz (n + 1))) (by omega) le_rfl]
    rfl

theorem bitIndices_mem_sorted (v : Nat) :
    (∀ i, i ∈ bitIndices v ↔ v.testBit i = true) ∧
      List.Sorted (· < ·) (bitIndices v) := by
  induction v using Nat.strong_induction_on with
  | _ v ih =>
    by_cases hv : v = 0
    · subst hv
      constructor
      · intro i
        rw [show bitIndices 0 = [] from rfl]
        simp [Nat.zero_testBit]
      · rw [show bitIndices 0 = [] from rfl]
        exact List.sorted_nil
    · rw [bitIndices_unfold v hv]
      obtain ⟨ihm, ihs⟩ := ih (v ^^^ (1 <<< ctz v)) (xor_ctz_lt v hv)
      have hbit : ∀ j, (v ^^^ (1 <<< ctz v)).testBit j =
          if j = ctz v then false else v.testBit j := by
        intro j
        rw [xor_shift_testBit]
        by_cases hj : j = ctz v
        · subst hj
          rw [if_pos rfl, if_pos rfl, ctz_testBit v hv]
          rfl
        · rw [if_neg hj, if_neg hj]
      constructor
      · intro i
        constructor
        · intro hi
          rcases List.mem_cons.mp hi with h1 | h1
          · subst h1
            exact ctz_testBit v hv
          · have hti := (ihm i).mp h1
            rw [hbit i] at hti
            by_cases hic : i = ctz v
            · rw [if_pos hic] at hti
              exact absurd hti (by simp)
            · rw [if_neg hic] at hti
              exact hti
        · intro hi
          by_cases hic : i = ctz v
          · rw [hic]
            exact List.mem_cons_self _ _
          · apply List.mem_cons_of_mem
            apply (ihm i).mpr
            rw [hbit i, if_neg hic]
            exact hi
      · rw [List.sorted_cons]
        refine ⟨?_, ihs⟩
        intro b hb
        have hbbit := (ihm b).mp hb
        rw [hbit b] at hbbit
        by_cases hbc : b = ctz v
        · rw [if_pos hbc] at hbbit
          exact absurd hbbit (by simp)
        · rw [if_neg hbc] at hbbit
          rcases Nat.lt_trichotomy (ctz v) b with h | h | h
          · exact h
          · exact absurd h.symm hbc
          · have hzero := ctz_min v hv b h
            rw [hzero] at hbbit
            exact absurd hbbit (by simp)

theorem printfDumpLoopF_spec (render : PrintfRenderer) (buf : PrintfBuf) :
    ∀ fuel valid txt, valid ≤ fuel →
    printfDumpLoopF render buf fuel valid txt =
      txt ++ strConcat ((bitIndices valid).map fun ndx =>
        render (buf.fmts.getD ndx "") (buf.args.getD ndx [])) := by
  intro fuel
  induction fuel with
  | zero =>
    intro valid txt h
    have hv : valid = 0 := Nat.le_zero.mp h
    subst hv
    show txt = txt ++ strConcat _
    rw [show bitIndices 0 = [] from rfl, List.map_nil,
      show strConcat [] = "" from rfl, String.append_empty]
  | succ fuel ih =>
    intro valid txt h
    by_cases hv : valid = 0
    · subst hv
      show (if (0 : Nat) = 0 then txt else _) = _
      rw [if_pos rfl, show bitIndices 0 = [] from rfl, List.map_nil,
        show strConcat [] = "" from rfl, String.append_empty]
    · unfold printfDumpLoopF
      rw [if_neg hv]
      have hlt : valid ^^^ (1 <<< ctz valid) < valid := xor_ctz_lt valid hv
      rw [ih (valid ^^^ (1 <<< ctz valid)) _ (by omega)]
      rw [bitIndices_unfold valid hv, List.map_cons]
      show _ = txt ++ (_ ++ strConcat _)
      rw [String.append_assoc]

/--
C8: after a printf_dump run the valid_entries bitmap is zero; when
logging is disabled nothing is appended to the text buffer; and when it
is enabled the text buffer is extended with exactly the renderings of the
staged slots whose bit was set, visited in least-significant-bit-first
order of the bitmap (the visited index list is sorted ascending and holds
precisely the set bits).
-/
theorem c8_printf_dump_spec (render : PrintfRenderer) (enabled : Bool)
    (buf : PrintfBuf) (txt : String) :
    (helper_qemu_log_printf_dump render enabled buf txt).1.valid_entries =
      0 ∧
    (enabled = false →
      (helper_qemu_log_printf_dump render enabled buf txt).2 = txt) ∧
    (enabled = true →
      (helper_qemu_log_printf_dump render enabled buf txt).2 =
        txt ++ strConcat ((bitIndices buf.valid_entries).map fun ndx =>
          render (buf.fmts.getD ndx "") (buf.args.getD ndx []))) ∧
    List.Sorted (· < ·) (bitIndices buf.valid_entries) ∧
    (∀ i, i ∈ bitIndices buf.valid_entries ↔
      buf.valid_entries.testBit i = true) := by
  refine ⟨?_, ?_, ?_, (bitIndices_mem_sorted buf.valid_entries).2,
    fun i => (bitIndices_mem_sorted buf.valid_entries).1 i⟩
  · unfold helper_qemu_log_printf_dump
    split
    · rfl
    · rfl
  · intro he
    unfold helper_qemu_log_printf_dump
    rw [if_pos he]
  · intro he
    subst he
    unfold helper_qemu_log_printf_dump
    rw [if_neg (by simp)]
    exact printfDumpLoopF_spec render buf buf.valid_entries
      buf.valid_entries txt le_rfl

/-- C8 witness: rendering the staging area with bits 0 and 2 set. -/
theorem c8_printf_dump_witness :
    (helper_qemu_log_printf_dump renderEx true printfBufEx
        "x").1.valid_entries = 0 ∧
    (helper_qemu_log_printf_dump renderEx true printfBufEx "x").2 =
      "x" ++ strConcat ((bitIndices printfBufEx.valid_entries).map fun ndx =>
        renderEx (printfBufEx.fmts.getD ndx "")
          (printfBufEx.args.getD ndx [])) :=
  ⟨(c8_printf_dump_spec renderEx true printfBufEx "x").1,
   (c8_printf_dump_spec renderEx true printfBufEx "x").2.2.1 rfl⟩
